import Mathlib

/-
Verification of the cursor-trail animation engine
(src/client/src/components/framer/MouseTrail.tsx).

Shallow embedding: JavaScript numbers are idealized as rationals (ℚ);
the mutable refs `trailPointsRef` / `particlesRef` become explicit state
(`MState`) threaded through pure transition functions.  `Math.hypot`
comparisons against a bound are expressed square-free-equivalently on
squares (hypot is nonnegative, so `hypot dx dy < d ↔ 0 < d ∧ dx²+dy² < d²`
and `hypot dx dy > 2 ↔ dx²+dy² > 4`).  The transcendental parts of the
particle-spawn velocity (`atan2`/`cos`/`sin` composed with `Math.random`)
are abstracted into an oracle (`Draws`), faithful because no verified
property depends on the concrete velocity values, only on positions,
counts and lives.  `Math.random()` results are oracle draws constrained
to [0, 1).
-/

namespace MouseTrail

/-- The `variant` prop of the component: 'line' | 'dots' | 'particles' | 'pixel'. -/
inductive Variant
  | line
  | dots
  | particles
  | pixel
deriving DecidableEq

/-- One entry of `trailPointsRef` (interface Point, lines 34-38). -/
structure Point where
  x : ℚ
  y : ℚ
  life : ℚ
deriving DecidableEq

/-- One entry of `particlesRef` (interface Particle, lines 40-47). -/
structure Particle where
  x : ℚ
  y : ℚ
  vx : ℚ
  vy : ℚ
  life : ℚ
  size : ℚ
deriving DecidableEq

/-- The configuration props consumed by the state-transition code paths. -/
structure Config where
  trailLength : ℕ
  lineWidth : ℚ
  fadeOut : Bool
  smoothing : ℚ
  dotSpacing : ℚ
  particleCount : ℕ
  particleSize : ℚ
  drift : ℚ
  autoFade : Bool
  fadeDuration : ℚ
deriving DecidableEq

/-- The mutable state of the component: current variant prop, the trail
queue `trailPointsRef.current` and the particle pool `particlesRef.current`. -/
structure MState where
  variant : Variant
  points : List Point
  particles : List Particle
deriving DecidableEq

/-- Oracle for one `addPoint` call's particle-spawn loop: `vel i` stands for
the velocity pair `(cos a * v, sin a * v)` of the i-th spawned particle
(lines 158-164, transcendental, hence abstracted), `lifeR i` and `sizeR i`
for the `Math.random()` draws in `life: 0.8 + Math.random() * 0.4` and
`size: particleSize + Math.random() * 1.5`. -/
structure Draws where
  vel : ℕ → ℚ × ℚ
  lifeR : ℕ → ℚ
  sizeR : ℕ → ℚ

/-- `Math.random()` returns values in [0, 1). -/
def Draws.valid (o : Draws) : Prop :=
  ∀ i, 0 ≤ o.lifeR i ∧ o.lifeR i < 1 ∧ 0 ≤ o.sizeR i ∧ o.sizeR i < 1

/-- A concrete oracle for scenario evaluation. -/
def zeroDraws : Draws :=
  ⟨fun _ => (0, 0), fun _ => 0, fun _ => 0⟩

/-- `Math.hypot dx dy < d` (line 137), expressed on squares: hypot is
nonnegative, so the comparison holds iff `0 < d` and `dx² + dy² < d²`. -/
def hypotLtB (dx dy d : ℚ) : Bool :=
  decide (0 < d ∧ dx * dx + dy * dy < d * d)

/-- `Math.hypot dx dy > 2` (line 154), expressed on squares. -/
def speedGt2B (dx dy : ℚ) : Bool :=
  decide (4 < dx * dx + dy * dy)

/-- `const s = Math.max(0.001, 1 - smoothing)` (line 140). -/
def smoothFactor (smoothing : ℚ) : ℚ :=
  max (1 / 1000) (1 - smoothing)

/-- `if (points.length > trailLength) points.splice(0, points.length - trailLength)`
(lines 146-148): drop the excess from the front. -/
def trimTrail (trailLength : ℕ) (pts : List Point) : List Point :=
  if trailLength < pts.length then pts.drop (pts.length - trailLength) else pts

/-- The particle burst of lines 157-168: `particleCount` particles at the
newly inserted (smoothed) position; velocities from the oracle, life
`0.8 + Math.random() * 0.4`, size `particleSize + Math.random() * 1.5`. -/
def spawnParticles (cfg : Config) (o : Draws) (sx sy : ℚ) : List Particle :=
  (List.range cfg.particleCount).map fun i =>
    { x := sx
      y := sy
      vx := (o.vel i).1
      vy := (o.vel i).2
      life := 8 / 10 + o.lifeR i * (4 / 10)
      size := cfg.particleSize + o.sizeR i * (3 / 2) }

/-- `addPoint(x, y)` (lines 129-173) as a state transition.  When the queue
is empty (`last === undefined`) the dots gate and the particle spawn are
skipped and the point is inserted raw; otherwise the dots spacing gate may
discard the input, the inserted position is smoothed against `last`, the
queue is trimmed to `trailLength`, and in the particles variant a burst may
be appended. -/
def addPointState (cfg : Config) (o : Draws) (x y : ℚ) (s : MState) : MState :=
  match s.points.getLast? with
  | none =>
      { s with points := trimTrail cfg.trailLength (s.points ++ [{ x := x, y := y, life := 1 }]) }
  | some last =>
      if s.variant == Variant.dots && hypotLtB (x - last.x) (y - last.y) cfg.dotSpacing then
        s
      else
        let sm := smoothFactor cfg.smoothing
        let sx := last.x + (x - last.x) * sm
        let sy := last.y + (y - last.y) * sm
        let pts := trimTrail cfg.trailLength (s.points ++ [{ x := sx, y := sy, life := 1 }])
        let parts :=
          if s.variant == Variant.particles && speedGt2B (sx - last.x) (sy - last.y) then
            s.particles ++ spawnParticles cfg o sx sy
          else
            s.particles
        { s with points := pts, particles := parts }

/-- The auto-fade pass of lines 188-194: decay every life by
`dt / Math.max(0.001, fadeDuration)` and remove entries whose life drops
to ≤ 0.  The source iterates from the top index downward and splices; a
removal at index i leaves all lower indices untouched, so the loop visits
each original entry exactly once and equals this forward `filterMap`. -/
def fadePoints (dt fadeDuration : ℚ) (pts : List Point) : List Point :=
  pts.filterMap fun p =>
    let l := p.life - dt / max (1 / 1000) fadeDuration
    if l ≤ 0 then none else some { p with life := l }

/-- `Math.pow` on the rational idealization: exact at integer exponents
(the only exponents the verified properties evaluate it at); left
unspecified (0) at non-integer exponents, where the true value is
irrational. -/
def powQ (b e : ℚ) : ℚ :=
  if e.den = 1 then b ^ e.num else 0

/-- The particle integration of lines 230-245: position integrates the old
velocity, velocity is damped by `0.98 ^ (dt * 60)` with gravity
`drift * 60 * 0.001 * dt * 60` added to vy, life decays by `1.6 * dt`,
and entries whose life drops to ≤ 0 are removed.  The downward splice loop
equals this forward `filterMap` for the same reason as the fade pass. -/
def updateParticles (cfg : Config) (dt : ℚ) (ps : List Particle) : List Particle :=
  let damping := powQ (98 / 100) (dt * 60)
  let g := cfg.drift * 60 * (1 / 1000) * dt * 60
  let decay := 16 / 10 * dt
  ps.filterMap fun p =>
    let l := p.life - decay
    if l ≤ 0 then
      none
    else
      some { x := p.x + p.vx * dt * 60
             y := p.y + p.vy * dt * 60
             vx := p.vx * damping
             vy := p.vy * damping + g
             life := l
             size := p.size }

/-- The bounding rectangle of the canvas, as seen by `drawFrame`. -/
structure Surface where
  w : ℚ
  h : ℚ
deriving DecidableEq

/-- `drawFrame(dt)` (lines 175-296) as a state transition.  `surf = none`
models a missing canvas or a null 2d context (early returns, lines
178-180); note the source never gates on the rectangle's size, only on
presence.  With a surface present: the auto-fade pass runs when `autoFade`
is set and the queue is nonempty; if the queue is then empty the frame
returns before any particle update; in the particles variant the particle
pool is integrated; all drawing is pure output and leaves state alone. -/
def drawFrameState (cfg : Config) (dt : ℚ) (surf : Option Surface) (s : MState) : MState :=
  match surf with
  | none => s
  | some _ =>
      let pts :=
        if cfg.autoFade && !s.points.isEmpty then fadePoints dt cfg.fadeDuration s.points
        else s.points
      let parts :=
        if pts.length < 1 then s.particles
        else if s.variant == Variant.particles then updateParticles cfg dt s.particles
        else s.particles
      { s with points := pts, particles := parts }

/-- The `useEffect` of lines 115-117: when the variant prop changes away
from 'particles', the particle pool is cleared. -/
def setVariantState (v : Variant) (s : MState) : MState :=
  { s with variant := v
           particles := if v == Variant.particles then s.particles else [] }

/-- One observable transition of the component: a pointer event feeding
`addPoint` (with valid random draws), an animation frame (dt is clamped to
[0, 0.05] in `animate`, so 0 ≤ dt), or a variant prop change. -/
inductive Step (cfg : Config) : MState → MState → Prop
  | add (s : MState) (o : Draws) (x y : ℚ) (ho : o.valid) :
      Step cfg s (addPointState cfg o x y s)
  | frame (s : MState) (dt : ℚ) (surf : Option Surface) (hdt : 0 ≤ dt) :
      Step cfg s (drawFrameState cfg dt surf s)
  | setVariant (s : MState) (v : Variant) :
      Step cfg s (setVariantState v s)

/-- The component mounts with empty queue and pool. -/
def initState (v : Variant) : MState :=
  ⟨v, [], []⟩

/-- States the component can actually be in. -/
def Reachable (cfg : Config) (v0 : Variant) (s : MState) : Prop :=
  Relation.ReflTransGen (Step cfg) (initState v0) s

/-- Every stored life is strictly positive (points are inserted with life 1,
particles with life ≥ 0.8, and both removal passes drop lives ≤ 0). -/
def livesPos (s : MState) : Prop :=
  (∀ p ∈ s.points, 0 < p.life) ∧ (∀ q ∈ s.particles, 0 < q.life)

/-- `indexAlpha(i, n)` (lines 198-202): quadratic ease-out over the
normalized index; constantly 1 when fade-out is disabled. -/
def indexAlpha (fadeOut : Bool) (i n : ℕ) : ℚ :=
  if !fadeOut then 1
  else
    let t : ℚ := if n ≤ 1 then 1 else (i : ℚ) / ((n : ℚ) - 1)
    1 - (1 - t) * (1 - t)

/-- Life of the i-th queue entry (0 when out of range; the draw loops only
read indices in range). -/
def lifeAt (pts : List Point) (i : ℕ) : ℚ :=
  ((pts.get? i).map Point.life).getD 0

/-- The alpha of line-variant segment i (line 284-285):
`indexAlpha(i, n) * (autoFade ? points[i].life : 1)`. -/
def segAlpha (cfg : Config) (pts : List Point) (i : ℕ) : ℚ :=
  indexAlpha cfg.fadeOut i pts.length * (if cfg.autoFade then lifeAt pts i else 1)

/-- The stroke width of line-variant segment i (lines 286-288):
`ctx.lineWidth = Math.max(1, lineWidth * (fadeOut ? 0.3 + 0.7 * a : 1))`. -/
def segStrokeWidth (cfg : Config) (pts : List Point) (i : ℕ) : ℚ :=
  max 1 (cfg.lineWidth * (if cfg.fadeOut then 3 / 10 + 7 / 10 * segAlpha cfg pts i else 1))

/-
Color parsing (parseColor, lines 55-69).  JS strings are modelled as
`List Char`; a channel value of `none` models NaN (`parseInt` of a string
with no leading hex digit, or `+undefined` when the rgb() digit-run list
is shorter than 3).
-/

/-- Value of one hexadecimal digit, none for any other character. -/
def hexDigitVal (c : Char) : Option ℕ :=
  if '0' ≤ c ∧ c ≤ '9' then some (c.toNat - '0'.toNat)
  else if 'a' ≤ c ∧ c ≤ 'f' then some (c.toNat - 'a'.toNat + 10)
  else if 'A' ≤ c ∧ c ≤ 'F' then some (c.toNat - 'A'.toNat + 10)
  else none

/-- Accumulate the longest hex-digit prefix, stopping at the first
non-digit (parseInt parses a prefix and ignores the rest). -/
def hexAccum : List Char → ℕ → ℕ
  | [], acc => acc
  | c :: cs, acc =>
    match hexDigitVal c with
    | none => acc
    | some v => hexAccum cs (16 * acc + v)

/-- Value of the longest hex-digit prefix; `none` (NaN) when the string
does not start with a hex digit. -/
def hexPrefixVal : List Char → Option ℕ
  | [] => none
  | c :: cs =>
    match hexDigitVal c with
    | none => none
    | some v => some (hexAccum cs v)

/-- parseInt with radix 16 strips one optional `0x` / `0X` prefix. -/
def strip0x : List Char → List Char
  | '0' :: c :: t => if c = 'x' ∨ c = 'X' then t else '0' :: c :: t
  | s => s

/-- JS `parseInt(s, 16)`: skip leading spaces, one optional sign, one
optional `0x`, then the longest hex-digit prefix; NaN (none) when no digit
follows. -/
def parseIntHex (s : List Char) : Option ℤ :=
  match s.dropWhile fun c => c = ' ' with
  | '-' :: t => (hexPrefixVal (strip0x t)).map fun n => -(n : ℤ)
  | '+' :: t => (hexPrefixVal (strip0x t)).map fun n => (n : ℤ)
  | t => (hexPrefixVal (strip0x t)).map fun n => (n : ℤ)

/-- Maximal runs of decimal digits in a string: the JS `col.match(/\d+/g)`
(flattening the null result to the empty list). -/
def digitRunsAux : List Char → List Char → List (List Char)
  | [], acc => if acc.isEmpty then [] else [acc.reverse]
  | c :: cs, acc =>
    if c.isDigit then digitRunsAux cs (c :: acc)
    else if acc.isEmpty then digitRunsAux cs []
    else acc.reverse :: digitRunsAux cs []

def digitRuns (s : List Char) : List (List Char) :=
  digitRunsAux s []

/-- Decimal value of a digit run (`+m[i]` on a digit string). -/
def decVal (s : List Char) : ℕ :=
  s.foldl (fun acc c => 10 * acc + (c.toNat - '0'.toNat)) 0

/-- An RGB triple whose channels may be NaN (`none`). -/
structure RGBv where
  r : Option ℤ
  g : Option ℤ
  b : Option ℤ
deriving DecidableEq

/-- The fallback color `{ r: 0, g: 0, b: 0 }`. -/
def blackRGB : RGBv :=
  ⟨some 0, some 0, some 0⟩

def listStartsWith (pre s : List Char) : Bool :=
  pre.isPrefixOf s

/-- `parseColor(col)` (lines 55-69).  `#`-prefixed input: expand a 3-digit
shorthand by doubling each character, then parse the three 2-character
slices with `parseInt(-, 16)`.  `rgb`-prefixed input: take the first three
decimal digit runs (`+m[k]` of a missing match is NaN).  Anything else
falls back to black. -/
def parseColor (col : List Char) : RGBv :=
  if listStartsWith ['#'] col then
    let hex := col.drop 1
    let hex := if hex.length = 3 then (hex.map fun c => [c, c]).flatten else hex
    { r := parseIntHex (hex.take 2)
      g := parseIntHex ((hex.drop 2).take 2)
      b := parseIntHex ((hex.drop 4).take 2) }
  else if listStartsWith ['r', 'g', 'b'] col then
    match digitRuns col with
    | [] => blackRGB
    | runs =>
      { r := (runs.get? 0).map fun d => (decVal d : ℤ)
        g := (runs.get? 1).map fun d => (decVal d : ℤ)
        b := (runs.get? 2).map fun d => (decVal d : ℤ) }
  else blackRGB

/-
Concrete configurations used in the end-to-end scenarios.  Fields not
exercised by a scenario keep the component's default prop values
(lines 71-94).
-/

/-- Scenario configuration: trail length 3, smoothing 0, defaults elsewhere. -/
def lineCfg3 : Config :=
  { trailLength := 3, lineWidth := 3, fadeOut := true, smoothing := 0,
    dotSpacing := 10, particleCount := 6, particleSize := 3, drift := 4/10,
    autoFade := true, fadeDuration := 2 }

/-- Scenario configuration: auto-fade on, fade duration 1 s, defaults elsewhere. -/
def fadeCfg : Config :=
  { trailLength := 20, lineWidth := 3, fadeOut := true, smoothing := 3/10,
    dotSpacing := 10, particleCount := 6, particleSize := 3, drift := 4/10,
    autoFade := true, fadeDuration := 1 }

/-- Scenario configuration: smoothing 0.9995, close enough to 1 to hit the
0.001 clamp of line 140. -/
def smoothCfg : Config :=
  { trailLength := 20, lineWidth := 3, fadeOut := true, smoothing := 9995/10000,
    dotSpacing := 10, particleCount := 6, particleSize := 3, drift := 4/10,
    autoFade := true, fadeDuration := 2 }

/-- Scenario configuration: configured line width 1, so a faded segment's
scaled width falls under the 1-pixel floor of line 288. -/
def lw1Cfg : Config :=
  { trailLength := 20, lineWidth := 1, fadeOut := true, smoothing := 0,
    dotSpacing := 10, particleCount := 6, particleSize := 3, drift := 4/10,
    autoFade := true, fadeDuration := 2 }

/-- A full trail queue (3 entries) for the eviction witness. -/
def st3 : MState :=
  ⟨Variant.line, [⟨0, 0, 1⟩, ⟨1, 0, 1⟩, ⟨2, 0, 1⟩], []⟩

/-
Helper lemmas.
-/

theorem zeroDraws_valid : zeroDraws.valid := by
  intro i
  refine ⟨le_refl 0, ?_, le_refl 0, ?_⟩ <;> norm_num [zeroDraws]

theorem trimTrail_length (L : ℕ) (xs : List Point) :
    (trimTrail L xs).length = min L xs.length := by
  unfold trimTrail
  split <;> rename_i h <;> simp [List.length_drop] <;> omega

theorem trimTrail_getLast (L : ℕ) (hL : 1 ≤ L) (xs : List Point) (p : Point) :
    (trimTrail L (xs ++ [p])).getLast? = some p := by
  unfold trimTrail
  split
  · rename_i h
    rw [List.length_append, List.length_singleton] at h
    rw [List.length_append, List.length_singleton,
      List.drop_append_of_le_length (by omega), List.getLast?_concat]
  · exact List.getLast?_concat _

theorem mem_trimTrail {L : ℕ} {xs : List Point} {p : Point} (h : p ∈ trimTrail L xs) :
    p ∈ xs := by
  unfold trimTrail at h
  split at h
  · exact List.mem_of_mem_drop h
  · exact h

/-- The dots-variant spacing gate (lines 134-138): a point closer to the
last recorded point than `dotSpacing` is discarded with no state change. -/
theorem addPoint_dots_discard (cfg : Config) (o : Draws) (x y : ℚ) (s : MState) (last : Point)
    (hl : s.points.getLast? = some last) (hv : s.variant = Variant.dots)
    (hd : 0 < cfg.dotSpacing)
    (hlt : (x - last.x) * (x - last.x) + (y - last.y) * (y - last.y)
      < cfg.dotSpacing * cfg.dotSpacing) :
    addPointState cfg o x y s = s := by
  have hcond : (s.variant == Variant.dots
      && hypotLtB (x - last.x) (y - last.y) cfg.dotSpacing) = true := by
    simp [hv, hypotLtB, hd, hlt]
  simp only [addPointState, hl, if_pos hcond]

/-- Two dots-variant insertions closer together than `dotSpacing`, starting
from an empty queue, leave a single queue entry. -/
theorem addPoint_dots_two_inserts :
    ∀ (cfg : Config) (o o2 : Draws) (x1 y1 x2 y2 : ℚ),
      1 ≤ cfg.trailLength →
      0 < cfg.dotSpacing →
      (x2 - x1) * (x2 - x1) + (y2 - y1) * (y2 - y1) < cfg.dotSpacing * cfg.dotSpacing →
      (addPointState cfg o x1 y1 ⟨Variant.dots, [], []⟩).points = [⟨x1, y1, 1⟩]
      ∧ addPointState cfg o2 x2 y2 (addPointState cfg o x1 y1 ⟨Variant.dots, [], []⟩)
          = addPointState cfg o x1 y1 ⟨Variant.dots, [], []⟩ := by
  intro cfg o o2 x1 y1 x2 y2 hL hd hlt
  have h1 : addPointState cfg o x1 y1 ⟨Variant.dots, [], []⟩
      = ⟨Variant.dots, [⟨x1, y1, 1⟩], []⟩ := by
    simp [addPointState, trimTrail]
    omega
  refine ⟨by rw [h1], ?_⟩
  rw [h1]
  exact addPoint_dots_discard cfg o2 x2 y2 ⟨Variant.dots, [⟨x1, y1, 1⟩], []⟩ ⟨x1, y1, 1⟩
    (by simp) rfl hd hlt

/-- A string starting with 'rgb' cannot also start with '#'. -/
theorem rgb_not_hash {col : List Char} (h : listStartsWith ['r', 'g', 'b'] col = true) :
    listStartsWith ['#'] col = false := by
  cases col with
  | nil => exact absurd h (by decide)
  | cons c cs =>
    have hc : ('r' == c) = true := by
      have h' := h
      unfold listStartsWith List.isPrefixOf at h'
      rw [Bool.and_eq_true] at h'
      exact h'.1
    have hcr : c = 'r' := (eq_of_beq hc).symm
    subst hcr
    rfl

/-- `addPoint` never changes the variant. -/
theorem addPoint_variant (cfg : Config) (o : Draws) (x y : ℚ) (s : MState) :
    (addPointState cfg o x y s).variant = s.variant := by
  cases hl : s.points.getLast? with
  | none => simp [addPointState, hl]
  | some last =>
    simp only [addPointState, hl]
    split
    · rfl
    · rfl

/-- `drawFrame` never changes the variant. -/
theorem drawFrame_variant (cfg : Config) (dt : ℚ) (surf : Option Surface) (s : MState) :
    (drawFrameState cfg dt surf s).variant = s.variant := by
  cases surf with
  | none => rfl
  | some r => rfl

/-- In any variant other than particles, `addPoint` leaves the pool alone
(the spawn block of line 150 is guarded by `variant === 'particles'`). -/
theorem addPoint_nonparticles_pool (cfg : Config) (o : Draws) (x y : ℚ) (s : MState)
    (hv : s.variant ≠ Variant.particles) :
    (addPointState cfg o x y s).particles = s.particles := by
  cases hl : s.points.getLast? with
  | none => simp [addPointState, hl]
  | some last =>
    simp only [addPointState, hl]
    split
    · rfl
    · have hsp : (s.variant == Variant.particles) = false := by simp [hv]
      simp [hsp]

/-- In any variant other than particles, `drawFrame` leaves the pool alone. -/
theorem drawFrame_nonparticles_pool (cfg : Config) (dt : ℚ) (surf : Option Surface)
    (s : MState) (hv : s.variant ≠ Variant.particles) :
    (drawFrameState cfg dt surf s).particles = s.particles := by
  cases surf with
  | none => rfl
  | some r =>
    have hsp : (s.variant == Variant.particles) = false := by simp [hv]
    simp only [drawFrameState, hsp, Bool.false_eq_true, if_false, ite_self]

/-- `addPoint` keeps every stored life strictly positive: trail points are
inserted with life 1, spawned particles with life `0.8 + r * 0.4`, r ∈ [0,1). -/
theorem livesPos_addPoint (cfg : Config) (o : Draws) (x y : ℚ) (s : MState)
    (ho : o.valid) (h : livesPos s) : livesPos (addPointState cfg o x y s) := by
  obtain ⟨hpts, hparts⟩ := h
  have hnewpts : ∀ (nx ny : ℚ) (p : Point),
      p ∈ trimTrail cfg.trailLength (s.points ++ [⟨nx, ny, 1⟩]) → 0 < p.life := by
    intro nx ny p hp
    rcases List.mem_append.mp (mem_trimTrail hp) with hin | hin
    · exact hpts p hin
    · rw [List.mem_singleton.mp hin]
      norm_num
  cases hl : s.points.getLast? with
  | none =>
    refine ⟨?_, ?_⟩
    · intro p hp
      simp only [addPointState, hl] at hp
      exact hnewpts _ _ p hp
    · intro q hq
      simp only [addPointState, hl] at hq
      exact hparts q hq
  | some last =>
    by_cases hg : (s.variant == Variant.dots
        && hypotLtB (x - last.x) (y - last.y) cfg.dotSpacing) = true
    · simp only [addPointState, hl, if_pos hg]
      exact ⟨hpts, hparts⟩
    · constructor
      · intro p hp
        simp only [addPointState, hl, if_neg hg] at hp
        exact hnewpts _ _ p hp
      · intro q hq
        simp only [addPointState, hl, if_neg hg] at hq
        split at hq
        · rcases List.mem_append.mp hq with hin | hin
          · exact hparts q hin
          · simp only [spawnParticles, List.mem_map, List.mem_range] at hin
            obtain ⟨i, _, rfl⟩ := hin
            have := (ho i).1
            norm_num
            linarith
        · exact hparts q hq

/-- The fade pass only keeps entries whose decayed life is positive. -/
theorem livesPos_fadePoints (dt fd : ℚ) (pts : List Point) :
    ∀ p ∈ fadePoints dt fd pts, 0 < p.life := by
  intro p hp
  simp only [fadePoints, List.mem_filterMap] at hp
  obtain ⟨q, _, hq⟩ := hp
  split at hq
  · exact absurd hq (by simp)
  · rename_i hgt
    cases hq
    exact lt_of_not_le hgt

/-- The particle integration only keeps entries whose decayed life is positive. -/
theorem livesPos_updateParticles (cfg : Config) (dt : ℚ) (ps : List Particle) :
    ∀ q ∈ updateParticles cfg dt ps, 0 < q.life := by
  intro q hq
  simp only [updateParticles, List.mem_filterMap] at hq
  obtain ⟨p, _, hp⟩ := hq
  split at hp
  · exact absurd hp (by simp)
  · rename_i hgt
    cases hp
    exact lt_of_not_le hgt

theorem livesPos_drawFrame (cfg : Config) (dt : ℚ) (surf : Option Surface) (s : MState)
    (h : livesPos s) : livesPos (drawFrameState cfg dt surf s) := by
  obtain ⟨hpts, hparts⟩ := h
  cases surf with
  | none => exact ⟨hpts, hparts⟩
  | some r =>
    constructor
    · intro p hp
      simp only [drawFrameState] at hp
      split at hp
      · exact livesPos_fadePoints _ _ _ p hp
      · exact hpts p hp
    · intro q hq
      simp only [drawFrameState] at hq
      split at hq <;>
        [skip; skip] <;>
        (split at hq
         · exact hparts q hq
         · split at hq
           · exact livesPos_updateParticles _ _ _ q hq
           · exact hparts q hq)

theorem livesPos_setVariant (v : Variant) (s : MState) (h : livesPos s) :
    livesPos (setVariantState v s) := by
  obtain ⟨hpts, hparts⟩ := h
  refine ⟨hpts, ?_⟩
  intro q hq
  simp only [setVariantState] at hq
  split at hq
  · exact hparts q hq
  · exact absurd hq (by simp)

/-- Every reachable state has strictly positive lives throughout. -/
theorem reachable_livesPos (cfg : Config) (v0 : Variant) (s : MState)
    (h : Reachable cfg v0 s) : livesPos s := by
  induction h with
  | refl => exact ⟨by simp [initState], by simp [initState]⟩
  | tail _ step ih =>
    cases step with
    | add o x y ho => exact livesPos_addPoint _ _ _ _ _ ho ih
    | frame dt surf hdt => exact livesPos_drawFrame _ _ _ _ ih
    | setVariant v => exact livesPos_setVariant _ _ ih

/-- A zero time step leaves a positive-lives queue unchanged under fade. -/
theorem fadePoints_zero (fd : ℚ) (pts : List Point) (h : ∀ p ∈ pts, 0 < p.life) :
    fadePoints 0 fd pts = pts := by
  induction pts with
  | nil => rfl
  | cons a t ih =>
    have ha : ¬(a.life - 0 / max (1/1000) fd ≤ 0) := by
      rw [zero_div, sub_zero]
      exact not_le.mpr (h a (List.mem_cons_self a t))
    have ht : fadePoints 0 fd t = t := ih fun p hp => h p (List.mem_cons_of_mem a hp)
    simp only [fadePoints, List.filterMap_cons] at ht ⊢
    rw [if_neg ha, ht]
    norm_num

/-- A zero time step leaves a positive-lives pool unchanged under
integration: positions gain `v * 0 * 60 = 0`, damping is `0.98 ^ 0 = 1`,
gravity and decay are scaled by `dt = 0`. -/
theorem updateParticles_zero (cfg : Config) (ps : List Particle)
    (h : ∀ q ∈ ps, 0 < q.life) :
    updateParticles cfg 0 ps = ps := by
  have hpow : powQ (98/100) ((0 : ℚ) * 60) = 1 := by
    rw [zero_mul]
    unfold powQ
    norm_num
  induction ps with
  | nil => rfl
  | cons a t ih =>
    have ha : ¬(a.life - 16 / 10 * 0 ≤ 0) := by
      rw [mul_zero, sub_zero]
      exact not_le.mpr (h a (List.mem_cons_self a t))
    have ht : updateParticles cfg 0 t = t := ih fun q hq => h q (List.mem_cons_of_mem a hq)
    simp only [updateParticles, List.filterMap_cons] at ht ⊢
    rw [if_neg ha, ht, hpow]
    norm_num

/-
Claim theorems.
-/

/-- Claim C1: the trail queue length never exceeds the configured trail
length; when an insertion happens at capacity the single oldest entry is
evicted (FIFO), so insertion order equals queue (rendering) order; and with
trail length 3 and smoothing 0, inserting (0,0), (10,0), (20,0), (30,0)
sequentially leaves the queue exactly [(10,0), (20,0), (30,0)]. -/
theorem addPoint_queue_bound_fifo :
    (∀ (cfg : Config) (o : Draws) (x y : ℚ) (s : MState),
        s.points.length ≤ cfg.trailLength →
        (addPointState cfg o x y s).points.length ≤ cfg.trailLength)
    ∧ (∀ (cfg : Config) (o : Draws) (x y : ℚ) (s : MState) (last : Point),
        s.points.getLast? = some last →
        s.points.length = cfg.trailLength →
        (s.variant == Variant.dots && hypotLtB (x - last.x) (y - last.y) cfg.dotSpacing)
          = false →
        (addPointState cfg o x y s).points
          = s.points.drop 1
              ++ [⟨last.x + (x - last.x) * smoothFactor cfg.smoothing,
                   last.y + (y - last.y) * smoothFactor cfg.smoothing, 1⟩])
    ∧ (addPointState lineCfg3 zeroDraws 30 0
        (addPointState lineCfg3 zeroDraws 20 0
          (addPointState lineCfg3 zeroDraws 10 0
            (addPointState lineCfg3 zeroDraws 0 0 (initState Variant.line))))).points
        = [⟨10, 0, 1⟩, ⟨20, 0, 1⟩, ⟨30, 0, 1⟩] := by
  refine ⟨?_, ?_, ?_⟩
  · intro cfg o x y s h
    cases hl : s.points.getLast? with
    | none => simp [addPointState, hl, trimTrail_length]
    | some last =>
      simp only [addPointState, hl]
      split
      · exact h
      · rw [trimTrail_length]
        simp
  · intro cfg o x y s last hl hcap hgate
    have hne : s.points ≠ [] := by
      intro he
      rw [he] at hl
      simp at hl
    have hlen1 : 1 ≤ s.points.length := List.length_pos.mpr hne
    have hcond : ¬((s.variant == Variant.dots
        && hypotLtB (x - last.x) (y - last.y) cfg.dotSpacing) = true) := by
      simp [hgate]
    simp only [addPointState, hl, if_neg hcond]
    unfold trimTrail
    rw [if_pos (by rw [List.length_append]; simp; omega)]
    rw [List.length_append]
    simp only [List.length_singleton]
    have h1 : s.points.length + 1 - cfg.trailLength = 1 := by omega
    rw [h1, List.drop_append_of_le_length hlen1]
  · norm_num [addPointState, trimTrail, smoothFactor, hypotLtB, speedGt2B, initState,
      lineCfg3]

/-- Witness for C1: a full 3-entry queue evicts exactly its oldest entry. -/
theorem addPoint_queue_bound_fifo_witness :
    (addPointState lineCfg3 zeroDraws 3 0 st3).points
      = st3.points.drop 1 ++ [⟨2 + (3 - 2) * smoothFactor lineCfg3.smoothing,
                              0 + (0 - 0) * smoothFactor lineCfg3.smoothing, 1⟩] :=
  addPoint_queue_bound_fifo.2.1 lineCfg3 zeroDraws 3 0 st3 ⟨2, 0, 1⟩ rfl rfl rfl

/-- Claim C2: with auto-fade enabled and fadeDuration ≥ 0.001, a frame with
elapsed time dt decays every trail point's life by exactly dt/fadeDuration,
visiting each point once, and drops exactly the points whose life falls to
≤ 0; with fadeDuration 1 and one fresh point, two dt = 0.5 frames leave the
point at life 1/2 and then empty the queue. -/
theorem drawFrame_autofade_decay :
    (∀ (cfg : Config) (r : Surface) (s : MState) (dt : ℚ),
        0 ≤ dt →
        cfg.autoFade = true →
        1 / 1000 ≤ cfg.fadeDuration →
        (drawFrameState cfg dt (some r) s).points
          = s.points.filterMap fun p =>
              if p.life - dt / cfg.fadeDuration ≤ 0 then none
              else some ⟨p.x, p.y, p.life - dt / cfg.fadeDuration⟩)
    ∧ ((drawFrameState fadeCfg (1/2) (some ⟨100, 100⟩)
          ⟨Variant.line, [⟨5, 5, 1⟩], []⟩).points
          = [⟨5, 5, 1/2⟩]
        ∧ (drawFrameState fadeCfg (1/2) (some ⟨100, 100⟩)
            (drawFrameState fadeCfg (1/2) (some ⟨100, 100⟩)
              ⟨Variant.line, [⟨5, 5, 1⟩], []⟩)).points
          = []) := by
  refine ⟨?_, ?_, ?_⟩
  · intro cfg r s dt hdt haf hfd
    have hmax : max (1000⁻¹ : ℚ) cfg.fadeDuration = cfg.fadeDuration :=
      max_eq_right (by rw [← one_div]; exact hfd)
    cases hp : s.points with
    | nil => simp [drawFrameState, hp, fadePoints]
    | cons a t => simp [drawFrameState, hp, fadePoints, hmax, haf]
  · norm_num [drawFrameState, fadePoints, fadeCfg, List.filterMap_cons, updateParticles]
  · norm_num [drawFrameState, fadePoints, fadeCfg, List.filterMap_cons, updateParticles]

/-- Witness for C2 at a concrete frame. -/
theorem drawFrame_autofade_decay_witness :
    (0 : ℚ) ≤ 1/2 ∧ fadeCfg.autoFade = true ∧ (1/1000 : ℚ) ≤ fadeCfg.fadeDuration
    ∧ (drawFrameState fadeCfg (1/2) (some ⟨100, 100⟩)
          ⟨Variant.line, [⟨5, 5, 1⟩], []⟩).points
        = [(⟨5, 5, 1⟩ : Point)].filterMap fun p =>
            if p.life - (1/2) / fadeCfg.fadeDuration ≤ 0 then none
            else some ⟨p.x, p.y, p.life - (1/2) / fadeCfg.fadeDuration⟩ :=
  ⟨by norm_num, rfl, by norm_num [fadeCfg],
    drawFrame_autofade_decay.1 fadeCfg ⟨100, 100⟩ ⟨Variant.line, [⟨5, 5, 1⟩], []⟩ (1/2)
      (by norm_num) rfl (by norm_num [fadeCfg])⟩

/-- Counterexample to C3 as stated: with smoothing 0.9995 the code inserts
x = 0 + 1000 · max(0.001, 1 − 0.9995) = 1, while the claimed formula
prev + (raw − prev) · (1 − f) gives 1/2. -/
theorem addPoint_smoothing_cex :
    (addPointState smoothCfg zeroDraws 1000 0 ⟨Variant.line, [⟨0, 0, 1⟩], []⟩).points
        = [⟨0, 0, 1⟩, ⟨1, 0, 1⟩]
    ∧ (0 : ℚ) + (1000 - 0) * (1 - smoothCfg.smoothing) = 1/2
    ∧ (1 : ℚ) ≠ 1/2 := by
  refine ⟨?_, ?_, ?_⟩
  · norm_num [addPointState, trimTrail, smoothFactor, hypotLtB, speedGt2B, smoothCfg]
  · norm_num [smoothCfg]
  · norm_num

/-- Claim C3 (amended): the inserted position is
prev + (raw − prev) · max(0.001, 1 − f); the factor equals 1 − f whenever
f ≤ 0.999, smoothing 0 reproduces the raw input exactly, and the factor is
clamped below by 0.001 (so the inserted point cannot get arbitrarily close
to the previous one for a fixed large jump). -/
theorem addPoint_smoothing_clamped :
    (∀ (cfg : Config) (o : Draws) (x y : ℚ) (s : MState) (last : Point),
        s.points.getLast? = some last →
        (s.variant == Variant.dots && hypotLtB (x - last.x) (y - last.y) cfg.dotSpacing)
          = false →
        1 ≤ cfg.trailLength →
        (addPointState cfg o x y s).points.getLast?
          = some ⟨last.x + (x - last.x) * max (1/1000) (1 - cfg.smoothing),
                  last.y + (y - last.y) * max (1/1000) (1 - cfg.smoothing), 1⟩)
    ∧ (∀ f : ℚ, f ≤ 999/1000 → max (1/1000 : ℚ) (1 - f) = 1 - f)
    ∧ smoothFactor 0 = 1
    ∧ (∀ f : ℚ, 1/1000 ≤ smoothFactor f) := by
  refine ⟨?_, ?_, ?_, ?_⟩
  · intro cfg o x y s last hl hgate hL
    have hcond : ¬((s.variant == Variant.dots
        && hypotLtB (x - last.x) (y - last.y) cfg.dotSpacing) = true) := by
      simp [hgate]
    simp only [addPointState, hl, if_neg hcond]
    exact trimTrail_getLast _ hL _ _
  · intro f hf
    rw [max_eq_right (by linarith)]
  · norm_num [smoothFactor]
  · intro f
    exact le_max_left _ _

/-- Witness for amended C3 at a concrete insertion. -/
theorem addPoint_smoothing_clamped_witness :
    (addPointState fadeCfg zeroDraws 10 0 ⟨Variant.line, [⟨0, 0, 1⟩], []⟩).points.getLast?
      = some ⟨0 + (10 - 0) * max (1/1000) (1 - fadeCfg.smoothing),
              0 + (0 - 0) * max (1/1000) (1 - fadeCfg.smoothing), 1⟩ :=
  addPoint_smoothing_clamped.1 fadeCfg zeroDraws 10 0 ⟨Variant.line, [⟨0, 0, 1⟩], []⟩
    ⟨0, 0, 1⟩ rfl rfl (by norm_num [fadeCfg])

/-- Claim C4: in the particles variant with a previous point present, a
smoothed displacement whose squared magnitude is below the threshold
(speed 2) spawns nothing; one above it appends exactly `particleCount`
particles, each positioned at the newly inserted point; any other variant
never spawns. -/
theorem addPoint_spawn :
    (∀ (cfg : Config) (o : Draws) (x y : ℚ) (s : MState) (last : Point),
        s.points.getLast? = some last →
        s.variant = Variant.particles →
        (((last.x + (x - last.x) * smoothFactor cfg.smoothing) - last.x)
              * ((last.x + (x - last.x) * smoothFactor cfg.smoothing) - last.x)
            + ((last.y + (y - last.y) * smoothFactor cfg.smoothing) - last.y)
              * ((last.y + (y - last.y) * smoothFactor cfg.smoothing) - last.y) < 4 →
          (addPointState cfg o x y s).particles = s.particles)
        ∧ (4 < ((last.x + (x - last.x) * smoothFactor cfg.smoothing) - last.x)
              * ((last.x + (x - last.x) * smoothFactor cfg.smoothing) - last.x)
            + ((last.y + (y - last.y) * smoothFactor cfg.smoothing) - last.y)
              * ((last.y + (y - last.y) * smoothFactor cfg.smoothing) - last.y) →
          (addPointState cfg o x y s).particles
            = s.particles ++ spawnParticles cfg o
                (last.x + (x - last.x) * smoothFactor cfg.smoothing)
                (last.y + (y - last.y) * smoothFactor cfg.smoothing)))
    ∧ (∀ (cfg : Config) (o : Draws) (sx sy : ℚ),
        (spawnParticles cfg o sx sy).length = cfg.particleCount
        ∧ ∀ q ∈ spawnParticles cfg o sx sy, q.x = sx ∧ q.y = sy)
    ∧ (∀ (cfg : Config) (o : Draws) (x y : ℚ) (s : MState),
        s.variant ≠ Variant.particles →
        (addPointState cfg o x y s).particles = s.particles) := by
  refine ⟨?_, ?_, fun cfg o x y s hv => addPoint_nonparticles_pool cfg o x y s hv⟩
  · intro cfg o x y s last hl hv
    have hgate : ¬((s.variant == Variant.dots
        && hypotLtB (x - last.x) (y - last.y) cfg.dotSpacing) = true) := by
      simp [hv]
    constructor
    · intro hslow
      have hsp : (s.variant == Variant.particles
          && speedGt2B ((last.x + (x - last.x) * smoothFactor cfg.smoothing) - last.x)
               ((last.y + (y - last.y) * smoothFactor cfg.smoothing) - last.y)) = false := by
        unfold speedGt2B
        rw [decide_eq_false (not_lt.mpr hslow.le), Bool.and_false]
      simp only [addPointState, hl, if_neg hgate]
      simp only [hsp, Bool.false_eq_true, if_false]
    · intro hfast
      have hsp : (s.variant == Variant.particles
          && speedGt2B ((last.x + (x - last.x) * smoothFactor cfg.smoothing) - last.x)
               ((last.y + (y - last.y) * smoothFactor cfg.smoothing) - last.y)) = true := by
        unfold speedGt2B
        rw [decide_eq_true hfast, Bool.and_true]
        simp [hv]
      simp only [addPointState, hl, if_neg hgate]
      simp only [hsp, if_true]
  · intro cfg o sx sy
    constructor
    · simp [spawnParticles]
    · intro q hq
      simp only [spawnParticles, List.mem_map, List.mem_range] at hq
      obtain ⟨i, _, rfl⟩ := hq
      exact ⟨rfl, rfl⟩

/-- Witness for C4: a jump of length 10 (squared 49 > 4 after smoothing)
spawns the configured burst at the new point. -/
theorem addPoint_spawn_witness :
    4 < ((0 + (10 - 0) * smoothFactor fadeCfg.smoothing) - 0)
          * ((0 + (10 - 0) * smoothFactor fadeCfg.smoothing) - 0)
        + ((0 + (0 - 0) * smoothFactor fadeCfg.smoothing) - 0)
          * ((0 + (0 - 0) * smoothFactor fadeCfg.smoothing) - 0)
    ∧ (addPointState fadeCfg zeroDraws 10 0 ⟨Variant.particles, [⟨0, 0, 1⟩], []⟩).particles
        = [] ++ spawnParticles fadeCfg zeroDraws
            (0 + (10 - 0) * smoothFactor fadeCfg.smoothing)
            (0 + (0 - 0) * smoothFactor fadeCfg.smoothing) :=
  ⟨by norm_num [smoothFactor, fadeCfg],
    ((addPoint_spawn.1 fadeCfg zeroDraws 10 0 ⟨Variant.particles, [⟨0, 0, 1⟩], []⟩
        ⟨0, 0, 1⟩ rfl rfl).2 (by norm_num [smoothFactor, fadeCfg]))⟩

/-- Claim C5: in the dots variant an input closer to the last recorded
point than the configured spacing is discarded with no insertion and no
side effect, so two nearby insertions produce a single queue entry. -/
theorem addPoint_dots_spacing_gate :
    (∀ (cfg : Config) (o : Draws) (x y : ℚ) (s : MState) (last : Point),
        s.points.getLast? = some last → s.variant = Variant.dots →
        0 < cfg.dotSpacing →
        (x - last.x) * (x - last.x) + (y - last.y) * (y - last.y)
            < cfg.dotSpacing * cfg.dotSpacing →
        addPointState cfg o x y s = s)
    ∧ (∀ (cfg : Config) (o o2 : Draws) (x1 y1 x2 y2 : ℚ),
        1 ≤ cfg.trailLength → 0 < cfg.dotSpacing →
        (x2 - x1) * (x2 - x1) + (y2 - y1) * (y2 - y1)
            < cfg.dotSpacing * cfg.dotSpacing →
        (addPointState cfg o x1 y1 ⟨Variant.dots, [], []⟩).points = [⟨x1, y1, 1⟩]
        ∧ addPointState cfg o2 x2 y2 (addPointState cfg o x1 y1 ⟨Variant.dots, [], []⟩)
            = addPointState cfg o x1 y1 ⟨Variant.dots, [], []⟩) :=
  ⟨addPoint_dots_discard, addPoint_dots_two_inserts⟩

/-- Witness for C5: a point at distance 5 < 10 from the last is discarded. -/
theorem addPoint_dots_spacing_gate_witness :
    addPointState fadeCfg zeroDraws 3 4 ⟨Variant.dots, [⟨0, 0, 1⟩], []⟩
      = ⟨Variant.dots, [⟨0, 0, 1⟩], []⟩ :=
  addPoint_dots_spacing_gate.1 fadeCfg zeroDraws 3 4 ⟨Variant.dots, [⟨0, 0, 1⟩], []⟩
    ⟨0, 0, 1⟩ rfl rfl (by norm_num [fadeCfg]) (by norm_num [fadeCfg])

/-- Counterexample to C6 as stated: with configured width 1 and a segment
alpha of 0.1 the code's stroke width is max(1, 1 · 0.37) = 1, not the
claimed lineWidth · (0.3 + 0.7 · alpha) = 0.37. -/
theorem segStrokeWidth_floor_cex :
    segStrokeWidth lw1Cfg [⟨0, 0, 1⟩, ⟨5, 0, 1/10⟩] 1 = 1
    ∧ lw1Cfg.lineWidth * (3/10 + 7/10 * segAlpha lw1Cfg [⟨0, 0, 1⟩, ⟨5, 0, 1/10⟩] 1)
        = 37/100
    ∧ (1 : ℚ) ≠ 37/100 := by
  refine ⟨?_, ?_, by norm_num⟩
  · norm_num [segStrokeWidth, segAlpha, indexAlpha, lifeAt, lw1Cfg]
  · norm_num [segAlpha, indexAlpha, lifeAt, lw1Cfg]

/-- Claim C6 (amended): the line-variant stroke width is
max(1, lineWidth · widthScale) with widthScale = 0.3 + 0.7 · alpha when
width-fade is on (the scale lies in [0.3, 1] for alpha ∈ [0, 1]) and
widthScale = 1 otherwise; the claimed equalities hold whenever the scaled
product is at least the 1-pixel floor. -/
theorem segStrokeWidth_clamped :
    (∀ (cfg : Config) (pts : List Point) (i : ℕ),
        cfg.fadeOut = true →
        1 ≤ cfg.lineWidth * (3/10 + 7/10 * segAlpha cfg pts i) →
        segStrokeWidth cfg pts i = cfg.lineWidth * (3/10 + 7/10 * segAlpha cfg pts i))
    ∧ (∀ (cfg : Config) (pts : List Point) (i : ℕ),
        0 ≤ segAlpha cfg pts i → segAlpha cfg pts i ≤ 1 →
        3/10 ≤ 3/10 + 7/10 * segAlpha cfg pts i
        ∧ 3/10 + 7/10 * segAlpha cfg pts i ≤ 1)
    ∧ (∀ (cfg : Config) (pts : List Point) (i : ℕ),
        cfg.fadeOut = false → 1 ≤ cfg.lineWidth →
        segStrokeWidth cfg pts i = cfg.lineWidth)
    ∧ (∀ (cfg : Config) (pts : List Point) (i : ℕ),
        segStrokeWidth cfg pts i
          = max 1 (cfg.lineWidth
              * (if cfg.fadeOut then 3/10 + 7/10 * segAlpha cfg pts i else 1))) := by
  refine ⟨?_, ?_, ?_, fun _ _ _ => rfl⟩
  · intro cfg pts i hf h1
    rw [segStrokeWidth, if_pos hf, max_eq_right h1]
  · intro cfg pts i h0 h1
    constructor <;> nlinarith
  · intro cfg pts i hf h1
    rw [segStrokeWidth, if_neg (by simp [hf]), mul_one, max_eq_right h1]

/-- Witness for amended C6: width 3, alpha 1 gives stroke width 3 · 1. -/
theorem segStrokeWidth_clamped_witness :
    fadeCfg.fadeOut = true
    ∧ 1 ≤ fadeCfg.lineWidth * (3/10 + 7/10 * segAlpha fadeCfg [⟨0, 0, 1⟩, ⟨1, 0, 1⟩] 1)
    ∧ segStrokeWidth fadeCfg [⟨0, 0, 1⟩, ⟨1, 0, 1⟩] 1
        = fadeCfg.lineWidth * (3/10 + 7/10 * segAlpha fadeCfg [⟨0, 0, 1⟩, ⟨1, 0, 1⟩] 1) :=
  ⟨rfl, by norm_num [fadeCfg, segAlpha, indexAlpha, lifeAt],
    segStrokeWidth_clamped.1 fadeCfg [⟨0, 0, 1⟩, ⟨1, 0, 1⟩] 1 rfl
      (by norm_num [fadeCfg, segAlpha, indexAlpha, lifeAt])⟩

/-- Counterexample to C7 as stated: the malformed color "#gg0000" does not
fall back to black; its red channel is NaN (parseInt of "gg" in base 16). -/
theorem parseColor_hex_nan_cex :
    parseColor ['#', 'g', 'g', '0', '0', '0', '0'] = ⟨none, some 0, some 0⟩
    ∧ parseColor ['#', 'g', 'g', '0', '0', '0', '0'] ≠ blackRGB :=
  ⟨by decide, by decide⟩

/-- Claim C7 (amended): input starting with neither '#' nor 'rgb' falls
back to black, as does an 'rgb'-prefixed string containing no number; but
a '#'-prefixed string with non-hex digit slices yields NaN channels, and
an 'rgb' string with fewer than three numbers yields NaN for the missing
channels. -/
theorem parseColor_fallback :
    (∀ col : List Char, listStartsWith ['#'] col = false →
        listStartsWith ['r', 'g', 'b'] col = false →
        parseColor col = blackRGB)
    ∧ (∀ col : List Char, listStartsWith ['r', 'g', 'b'] col = true →
        digitRuns col = [] → parseColor col = blackRGB)
    ∧ (∀ col : List Char, listStartsWith ['r', 'g', 'b'] col = true →
        digitRuns col ≠ [] → (digitRuns col).length < 3 →
        (parseColor col).b = none)
    ∧ (parseColor ['#', 'z', 'z', 'z', 'z', 'z', 'z']).r = none := by
  refine ⟨?_, ?_, ?_, by decide⟩
  · intro col h1 h2
    rw [parseColor, if_neg (by simp [h1]), if_neg (by simp [h2])]
  · intro col h3 h2
    rw [parseColor, if_neg (by simp [rgb_not_hash h3]), if_pos h3, h2]
  · intro col h3 hne hlen
    rw [parseColor, if_neg (by simp [rgb_not_hash h3]), if_pos h3]
    cases hd : digitRuns col with
    | nil => exact absurd hd hne
    | cons r rest =>
      rw [hd] at hlen
      show (((r :: rest).get? 2).map fun d => (decVal d : ℤ)) = none
      rw [List.get?_eq_none.mpr (by simp at hlen ⊢; omega)]
      rfl

/-- Witness for amended C7: "hsl(120)" (digits, but neither '#' nor 'rgb')
maps to black, "rgb()" with no number maps to black, and "rgb(1)" leaves
the missing blue channel NaN. -/
theorem parseColor_fallback_witness :
    parseColor ['h', 's', 'l', '(', '1', '2', '0', ')'] = blackRGB
    ∧ parseColor ['r', 'g', 'b', '(', ')'] = blackRGB
    ∧ (parseColor ['r', 'g', 'b', '(', '1', ')']).b = none :=
  ⟨parseColor_fallback.1 ['h', 's', 'l', '(', '1', '2', '0', ')'] (by decide) (by decide),
   parseColor_fallback.2.1 ['r', 'g', 'b', '(', ')'] (by decide) (by decide),
   parseColor_fallback.2.2.1 ['r', 'g', 'b', '(', '1', ')'] (by decide) (by decide)
     (by decide)⟩

/-- Counterexample to C8 as stated: a present surface of zero viewport size
does not skip the frame; the auto-fade mutation still runs. -/
theorem drawFrame_zero_size_cex :
    drawFrameState fadeCfg (1/2) (some ⟨0, 0⟩) ⟨Variant.line, [⟨5, 5, 1⟩], []⟩
      ≠ ⟨Variant.line, [⟨5, 5, 1⟩], []⟩ := by
  norm_num [drawFrameState, fadePoints, fadeCfg, List.filterMap_cons, updateParticles,
    MState.mk.injEq, Point.mk.injEq]

/-- Claim C8 (amended): a missing drawing surface (or null 2d context)
makes the frame a silent no-op on the trail queue and particle pool; the
surface's viewport size is never consulted, so frames behave identically
for every present surface, including zero-sized ones (which therefore do
run the state updates). -/
theorem drawFrame_surface_policy :
    (∀ (cfg : Config) (dt : ℚ) (s : MState), drawFrameState cfg dt none s = s)
    ∧ (∀ (cfg : Config) (dt : ℚ) (r r2 : Surface) (s : MState),
        drawFrameState cfg dt (some r) s = drawFrameState cfg dt (some r2) s) :=
  ⟨fun _ _ _ => rfl, fun _ _ _ _ _ => rfl⟩

/-- Claim C9: a frame with dt = 0 is the identity on every reachable
state: no position, velocity, life or membership drift, so consecutive
zero-dt frames compute identical alpha and position values. -/
theorem drawFrame_zero_dt (cfg : Config) (v0 : Variant) (surf : Option Surface) (s : MState)
    (h : Reachable cfg v0 s) : drawFrameState cfg 0 surf s = s := by
  obtain ⟨hpts, hparts⟩ := reachable_livesPos cfg v0 s h
  cases surf with
  | none => rfl
  | some r =>
    simp only [drawFrameState]
    have hf : (if cfg.autoFade && !s.points.isEmpty
        then fadePoints 0 cfg.fadeDuration s.points else s.points) = s.points := by
      split
      · exact fadePoints_zero _ _ hpts
      · rfl
    rw [hf]
    have hp : (if s.points.length < 1 then s.particles
        else if s.variant == Variant.particles then updateParticles cfg 0 s.particles
        else s.particles) = s.particles := by
      split
      · rfl
      · split
        · exact updateParticles_zero _ _ hparts
        · rfl
    rw [hp]

/-- Witness for C9: a zero-dt frame fixes the state reached by one
insertion. -/
theorem drawFrame_zero_dt_witness :
    drawFrameState fadeCfg 0 (some ⟨100, 100⟩)
        (addPointState fadeCfg zeroDraws 5 5 (initState Variant.line))
      = addPointState fadeCfg zeroDraws 5 5 (initState Variant.line) :=
  drawFrame_zero_dt fadeCfg Variant.line (some ⟨100, 100⟩)
    (addPointState fadeCfg zeroDraws 5 5 (initState Variant.line))
    (Relation.ReflTransGen.single
      (Step.add (initState Variant.line) zeroDraws 5 5 zeroDraws_valid))

/-- Claim C10: in every reachable state whose variant is not particles the
particle pool is empty; addPoint never appends to the pool in a
non-particles variant, and switching the variant away from particles
clears the pool at once. -/
theorem nonparticles_pool_empty :
    (∀ (cfg : Config) (v0 : Variant) (s : MState), Reachable cfg v0 s →
        s.variant ≠ Variant.particles → s.particles = [])
    ∧ (∀ (cfg : Config) (o : Draws) (x y : ℚ) (s : MState),
        s.variant ≠ Variant.particles →
        (addPointState cfg o x y s).particles = s.particles)
    ∧ (∀ (v : Variant) (s : MState), v ≠ Variant.particles →
        (setVariantState v s).particles = []) := by
  have hset : ∀ (v : Variant) (s : MState), v ≠ Variant.particles →
      (setVariantState v s).particles = [] := by
    intro v s hv
    have hsp : (v == Variant.particles) = false := by simp [hv]
    simp [setVariantState, hsp]
  refine ⟨?_, fun cfg o x y s hv => addPoint_nonparticles_pool cfg o x y s hv, hset⟩
  intro cfg v0 s h
  induction h with
  | refl => intro _; rfl
  | tail _ step ih =>
    cases step with
    | add o x y ho =>
      intro hv
      rw [addPoint_variant] at hv
      rw [addPoint_nonparticles_pool _ _ _ _ _ hv]
      exact ih hv
    | frame dt surf hdt =>
      intro hv
      rw [drawFrame_variant] at hv
      rw [drawFrame_nonparticles_pool _ _ _ _ hv]
      exact ih hv
    | setVariant v =>
      intro hv
      apply hset
      simpa [setVariantState] using hv

/-- Witness for C10: switching a mounted particles component to the line
variant empties the pool. -/
theorem nonparticles_pool_empty_witness :
    (setVariantState Variant.line (initState Variant.particles)).particles = [] :=
  nonparticles_pool_empty.1 fadeCfg Variant.particles
    (setVariantState Variant.line (initState Variant.particles))
    (Relation.ReflTransGen.single
      (Step.setVariant (initState Variant.particles) Variant.line))
    (by decide)

end MouseTrail
